import Mathlib

set_option maxRecDepth 8000

/-!
Verification of the github-events ETL pipeline.

The development shallowly embeds the repository's Python sources:
  * `config.py`   — time-window computation (`Config.get_min_timestamp`,
                    `Config.get_max_timestamp`);
  * `main.py`     — the orchestrator `github_events_etl`, modelled over an
                    abstract environment supplying the row-count probe, the
                    streamed rows and the per-publish-call success counts;
  * `pubsub_client.py` — `PubSubClient.publish_events` and `_create_batches`,
                    with per-future await outcomes abstracted as booleans;
  * `process_messages.py` — `process_single_message` and
                    `pull_and_process_all`, modelled over a list of pull
                    results;
  * the wire format — Python `json.dumps(·, ensure_ascii=False)` /
                    `json.loads` restricted to the integer-number fragment
                    (no floats), plus UTF-8 encoding and decoding.
-/

/-! ## Time window (`config.py`) -/

/-- A Python `datetime` split into whole hours since some epoch plus its
sub-hour components.  `timedelta(hours = h)` arithmetic acts only on
`epochHours`; `replace(minute=0, second=0, microsecond=0)` zeroes the rest. -/
structure PyDateTime where
  epochHours : Int
  minute : Nat
  second : Nat
  microsecond : Nat
deriving DecidableEq, Repr

/-- `current_time.replace(minute=0, second=0, microsecond=0)` from
`Config.get_min_timestamp`. -/
def replaceSubHourZero (t : PyDateTime) : PyDateTime :=
  { t with minute := 0, second := 0, microsecond := 0 }

/-- `t - timedelta(hours = h)`. -/
def subHours (t : PyDateTime) (h : Int) : PyDateTime :=
  { t with epochHours := t.epochHours - h }

/-- `t + timedelta(hours = h)`. -/
def addHours (t : PyDateTime) (h : Int) : PyDateTime :=
  { t with epochHours := t.epochHours + h }

/-- `Config.get_min_timestamp`: round the current time down to the hour and
subtract `HOURS_BEHIND`. -/
def get_min_timestamp (currentTime : PyDateTime) (hoursBehind : Int) : PyDateTime :=
  subHours (replaceSubHourZero currentTime) hoursBehind

/-- `Config.get_max_timestamp`: one hour after the minimum timestamp. -/
def get_max_timestamp (minTimestamp : PyDateTime) : PyDateTime :=
  addHours minTimestamp 1

/-- Total microseconds represented by a `PyDateTime`. -/
def toMicroseconds (t : PyDateTime) : Int :=
  t.epochHours * 3600000000 + ((t.minute * 60 + t.second) * 1000000 + t.microsecond : Nat)

/-! ## Orchestrator (`main.py`) -/

/-- Abstract environment for one orchestrator run: the row-count probe
result, the sequence of rows the streaming query yields, and the success
count each `publish_events` call would report on a given argument list. -/
structure EtlEnv (α : Type) where
  rowCount : Nat
  stream : List α
  publishSuccess : List α → Nat

/-- Result summary of one orchestrator run, together with the observable
actions taken: whether the streaming query was invoked and the argument list
of every `publish_events` call issued. -/
structure EtlResult (α : Type) where
  status : String
  events_processed : Nat
  events_published : Nat
  streamInvoked : Bool
  publishCalls : List (List α)
deriving Repr

/-- The accumulation loop of `github_events_etl`: append each streamed row
to the buffer and publish-and-clear whenever the buffer reaches 1000
records.  Returns the intermediate publish-call arguments and the leftover
buffer. -/
def chunkLoop {α : Type} : List α → List α → List (List α) × List α
  | buf, [] => ([], buf)
  | buf, e :: rest =>
    let buf2 := buf ++ [e]
    if 1000 ≤ buf2.length then
      let r := chunkLoop [] rest
      (buf2 :: r.1, r.2)
    else
      chunkLoop buf2 rest

/-- `github_events_etl` (success path): probe the row count, short-circuit on
zero, otherwise stream rows through `chunkLoop` and finally publish the
remaining buffer.  As in the source, `published_count` is reset to 0 before
the final publish, so `events_published` reports only the final call's
success count. -/
def github_events_etl {α : Type} (env : EtlEnv α) : EtlResult α :=
  if env.rowCount = 0 then
    { status := "success", events_processed := 0, events_published := 0,
      streamInvoked := false, publishCalls := [] }
  else
    let r := chunkLoop [] env.stream
    let finalPublished := if r.2.isEmpty then 0 else env.publishSuccess r.2
    { status := "success",
      events_processed := env.rowCount,
      events_published := finalPublished,
      streamInvoked := true,
      publishCalls := r.1 ++ (if r.2.isEmpty then [] else [r.2]) }

/-- Sizes of the publish calls issued by the buffer loop, and the leftover
buffer size: with a buffer below the threshold, the loop emits
`(buf + stream) / 1000` full 1000-record calls and leaves
`(buf + stream) % 1000` records buffered. -/
theorem chunkLoop_sizes {α : Type} :
    ∀ (s buf : List α), buf.length < 1000 →
      (chunkLoop buf s).1.map List.length
          = List.replicate ((buf.length + s.length) / 1000) 1000 ∧
      (chunkLoop buf s).2.length = (buf.length + s.length) % 1000 := by
  intro s
  induction s with
  | nil =>
    intro buf hb
    have h0 : buf.length / 1000 = 0 := by omega
    have h1 : buf.length % 1000 = buf.length := by omega
    simp [chunkLoop, h0, h1]
  | cons e rest ih =>
    intro buf hb
    by_cases hfull : 1000 ≤ (buf ++ [e]).length
    · have hblen : buf.length = 999 := by
        simp at hfull; omega
      have ih0 := ih [] (by simp)
      simp only [chunkLoop, hfull, if_pos]
      simp only [List.map_cons, List.length_append, List.length_cons,
        List.length_nil, List.length_map] at ih0 ⊢
      refine ⟨?_, ?_⟩
      · rw [ih0.1]
        have hd : (buf.length + (rest.length + 1)) / 1000 = rest.length / 1000 + 1 := by
          omega
        rw [hd, List.replicate_succ]
        simp [hblen]
      · rw [ih0.2]
        omega
    · have hlt : (buf ++ [e]).length < 1000 := by omega
      have ih1 := ih (buf ++ [e]) hlt
      simp only [chunkLoop, hfull, if_neg, not_false_iff]
      simp only [List.length_append, List.length_cons, List.length_nil] at ih1 ⊢
      refine ⟨?_, ?_⟩
      · rw [ih1.1]
        congr 1
        omega
      · rw [ih1.2]
        congr 1
        omega

/-- C3: whenever the row-count probe returns 0, the orchestrator returns a
success result with `events_processed = 0` and `events_published = 0`, and
the streaming query is never invoked (no publish calls either). -/
theorem rowcount_zero_short_circuit {α : Type} (env : EtlEnv α)
    (h : env.rowCount = 0) :
    (github_events_etl env).status = "success" ∧
    (github_events_etl env).events_processed = 0 ∧
    (github_events_etl env).events_published = 0 ∧
    (github_events_etl env).streamInvoked = false ∧
    (github_events_etl env).publishCalls = [] := by
  simp [github_events_etl, h]

/-- Witness for `rowcount_zero_short_circuit` at a concrete environment. -/
theorem rowcount_zero_short_circuit_witness :
    (github_events_etl (⟨0, [1, 2, 3], List.length⟩ : EtlEnv Nat)).status = "success" ∧
    (github_events_etl (⟨0, [1, 2, 3], List.length⟩ : EtlEnv Nat)).events_processed = 0 ∧
    (github_events_etl (⟨0, [1, 2, 3], List.length⟩ : EtlEnv Nat)).events_published = 0 ∧
    (github_events_etl (⟨0, [1, 2, 3], List.length⟩ : EtlEnv Nat)).streamInvoked = false ∧
    (github_events_etl (⟨0, [1, 2, 3], List.length⟩ : EtlEnv Nat)).publishCalls = [] :=
  rowcount_zero_short_circuit _ rfl


/-- On a nonzero row count, the orchestrator streams, publishes the chunked
calls and reports the summary built from the final-buffer publish. -/
theorem github_events_etl_pos {α : Type} (env : EtlEnv α) (hc : env.rowCount ≠ 0) :
    github_events_etl env =
      { status := "success",
        events_processed := env.rowCount,
        events_published := if (chunkLoop [] env.stream).2.isEmpty then 0
                            else env.publishSuccess (chunkLoop [] env.stream).2,
        streamInvoked := true,
        publishCalls := (chunkLoop [] env.stream).1 ++
          (if (chunkLoop [] env.stream).2.isEmpty then [] else [(chunkLoop [] env.stream).2]) } := by
  unfold github_events_etl
  rw [if_neg hc]

/-- C2: the computed window is the hour-floor of the current time shifted
back by the configured lag, the maximum is exactly one hour later, and the
result depends only on the current time's whole-hour part (the division is
Euclidean, hence floor division, the divisor being positive). -/
theorem time_window_spec (T T' : PyDateTime) (L : Int)
    (hm : T.minute < 60) (hs : T.second < 60) (hu : T.microsecond < 1000000) :
    toMicroseconds (get_min_timestamp T L)
        = 3600000000 * (toMicroseconds T / 3600000000) - L * 3600000000 ∧
    toMicroseconds (get_max_timestamp (get_min_timestamp T L))
        = toMicroseconds (get_min_timestamp T L) + 3600000000 ∧
    (T.epochHours = T'.epochHours → get_min_timestamp T L = get_min_timestamp T' L) := by
  refine ⟨?_, ?_, ?_⟩
  · simp only [get_min_timestamp, subHours, replaceSubHourZero, toMicroseconds]
    push_cast
    omega
  · simp only [get_min_timestamp, get_max_timestamp, subHours, addHours,
      replaceSubHourZero, toMicroseconds]
    push_cast
    ring
  · intro h
    simp [get_min_timestamp, subHours, replaceSubHourZero, h]

/-- Witness for `time_window_spec` at a concrete time and lag. -/
theorem time_window_spec_witness :
    toMicroseconds (get_min_timestamp ⟨5, 17, 23, 450⟩ 2)
        = 3600000000 * (toMicroseconds ⟨5, 17, 23, 450⟩ / 3600000000) - 2 * 3600000000 ∧
    toMicroseconds (get_max_timestamp (get_min_timestamp ⟨5, 17, 23, 450⟩ 2))
        = toMicroseconds (get_min_timestamp ⟨5, 17, 23, 450⟩ 2) + 3600000000 ∧
    ((⟨5, 17, 23, 450⟩ : PyDateTime).epochHours = (⟨5, 0, 0, 0⟩ : PyDateTime).epochHours →
      get_min_timestamp ⟨5, 17, 23, 450⟩ 2 = get_min_timestamp ⟨5, 0, 0, 0⟩ 2) :=
  time_window_spec ⟨5, 17, 23, 450⟩ ⟨5, 0, 0, 0⟩ 2 (by decide) (by decide) (by decide)

/-- Shape of a 2500-record run: the publish-call sizes are 1000, 1000, 500,
and `events_published` is the success count of the final 500-record call. -/
theorem etl2500_shape {α : Type} (env : EtlEnv α)
    (hc : env.rowCount ≠ 0) (hs : env.stream.length = 2500) :
    (github_events_etl env).publishCalls.map List.length = [1000, 1000, 500] ∧
    (github_events_etl env).events_published
        = env.publishSuccess (chunkLoop [] env.stream).2 ∧
    (chunkLoop [] env.stream).2.length = 500 := by
  obtain ⟨ha, hb⟩ := chunkLoop_sizes env.stream [] (by simp)
  simp only [List.length_nil, Nat.zero_add, hs] at ha hb
  have e1 : (2500 : Nat) / 1000 = 2 := by norm_num
  have e2 : (2500 : Nat) % 1000 = 500 := by norm_num
  rw [e1] at ha
  rw [e2] at hb
  have hne : ¬((chunkLoop [] env.stream).2.isEmpty = true) := by
    cases hl : (chunkLoop [] env.stream).2 with
    | nil => rw [hl] at hb; simp at hb
    | cons a l => simp
  refine ⟨?_, ?_, hb⟩
  · rw [github_events_etl_pos env hc]
    simp only [if_neg hne]
    rw [List.map_append, ha]
    simp only [List.map_cons, List.map_nil, hb]
    decide
  · rw [github_events_etl_pos env hc]
    simp only [if_neg hne]

/-- C5: a run whose streaming query yields exactly 2500 records (and whose
row-count probe is nonzero, so streaming happens at all) issues exactly
three publish calls, of sizes 1000, 1000 and 500 in that order. -/
theorem stream_2500_publish_calls {α : Type} (env : EtlEnv α)
    (hc : env.rowCount ≠ 0) (hs : env.stream.length = 2500) :
    (github_events_etl env).publishCalls.map List.length = [1000, 1000, 500] :=
  (etl2500_shape env hc hs).1

/-- A concrete 2500-record environment in which every individual publish
succeeds, so each publish call reports its full input size as successes. -/
def envC1 : EtlEnv Nat :=
  ⟨2500, List.replicate 2500 0, List.length⟩

/-- Witness for `stream_2500_publish_calls` at a concrete 2500-record run. -/
theorem stream_2500_publish_calls_witness :
    (github_events_etl envC1).publishCalls.map List.length = [1000, 1000, 500] :=
  stream_2500_publish_calls envC1
    (by rw [show envC1.rowCount = 2500 from rfl]; decide)
    (by rw [show envC1.stream = List.replicate 2500 0 from rfl, List.length_replicate])

/-- C1 fails on the code: `main.py` resets `published_count` to 0 before the
final publish, so the intermediate 1000-record publishes are not added into
`events_published`.  On a 2500-record run where every individual publish
succeeds (success count = input size), the summary reports 500 while the sum
of successes across the three publish calls is 2500. -/
theorem events_published_drops_intermediate_batches :
    (github_events_etl envC1).events_published = 500 ∧
    ((github_events_etl envC1).publishCalls.map envC1.publishSuccess).sum = 2500 := by
  have h := etl2500_shape envC1
    (by rw [show envC1.rowCount = 2500 from rfl]; decide)
    (by rw [show envC1.stream = List.replicate 2500 0 from rfl, List.length_replicate])
  constructor
  · rw [h.2.1]
    exact h.2.2
  · show (((github_events_etl envC1).publishCalls).map List.length).sum = 2500
    rw [h.1]
    decide

/-! ## Publish sink (`pubsub_client.py`) -/

/-- `PubSubClient._create_batches`: split a list into consecutive slices of
`batchSize` (Python `items[i:i+n]` for `i in range(0, len(items), n)`; a zero
step would raise in Python and is mapped to the empty batch list, unused
since the configured batch size is positive). -/
def create_batches {α : Type} : List α → Nat → List (List α)
  | _, 0 => []
  | [], _ + 1 => []
  | x :: xs, n + 1 => (x :: xs).take (n + 1) :: create_batches ((x :: xs).drop (n + 1)) (n + 1)
termination_by l _ => l.length
decreasing_by simp [List.length_drop]; omega

/-- Flattening the batches recovers the original list (positive batch size). -/
theorem create_batches_flatten_aux {α : Type} :
    ∀ (N : Nat) (l : List α) (n : Nat), 0 < n → l.length ≤ N →
      (create_batches l n).flatten = l := by
  intro N
  induction N with
  | zero =>
    intro l n hn hl
    have hnil : l = [] := by
      cases l with
      | nil => rfl
      | cons x xs => simp at hl
    subst hnil
    cases n with
    | zero => omega
    | succ m => simp [create_batches]
  | succ N ih =>
    intro l n hn hl
    cases n with
    | zero => omega
    | succ m =>
      cases l with
      | nil => simp [create_batches]
      | cons x xs =>
        rw [create_batches]
        rw [List.flatten_cons]
        rw [ih ((x :: xs).drop (m + 1)) (m + 1) (by omega)
          (by simp only [List.length_drop, List.length_cons] at hl ⊢; omega)]
        exact List.take_append_drop _ _

/-- Specialization of `create_batches_flatten_aux` at the list's own length. -/
theorem create_batches_flatten {α : Type} (l : List α) (n : Nat) (hn : 0 < n) :
    (create_batches l n).flatten = l :=
  create_batches_flatten_aux l.length l n hn le_rfl

/-- `PubSubClient.publish_events`, with the awaited fate of each submitted
future abstracted as a boolean (in submission order): returns 0 on empty
input, otherwise submits one future per event across the batches and counts
the futures whose `result(timeout=30)` succeeds.  Individual failures and
timeouts are logged and skipped, never raised. -/
def publish_events {α : Type} (batchSize : Nat) (events : List α) (outcome : List Bool) : Nat :=
  if events.isEmpty then 0
  else
    let futures := (create_batches events batchSize).flatten
    ((futures.zip outcome).filter (fun p => p.2)).length

/-- Counting the satisfied pairs of a zip against booleans counts the true
booleans, when the lists have equal length. -/
theorem zip_filter_snd_length {α : Type} :
    ∀ (xs : List α) (bs : List Bool), bs.length = xs.length →
      ((xs.zip bs).filter (fun p => p.2)).length = (bs.filter (fun b => b)).length := by
  intro xs
  induction xs with
  | nil =>
    intro bs h
    simp only [List.length_nil] at h
    have : bs = [] := List.length_eq_zero.mp h
    simp [this]
  | cons x xs ih =>
    intro bs h
    cases bs with
    | nil => simp at h
    | cons b bs =>
      have hb : bs.length = xs.length := by simpa using h
      cases b <;> simp [List.filter_cons, ih bs hb]

/-- The true-count and false-count of a boolean list add up to its length. -/
theorem filter_true_add_filter_false (bs : List Bool) :
    (bs.filter (fun b => b)).length + (bs.filter (fun b => !b)).length = bs.length := by
  induction bs with
  | nil => simp
  | cons b bs ih => cases b <;> simp [List.filter_cons] <;> omega

/-- C4: publishing N events with per-future outcomes of which K fail or time
out (submission itself not throwing) returns exactly N − K, without raising. -/
theorem publish_events_success_count {α : Type} (batchSize : Nat) (events : List α)
    (outcome : List Bool) (hb : 0 < batchSize) (hne : events ≠ [])
    (hlen : outcome.length = events.length) :
    publish_events batchSize events outcome
      = events.length - (outcome.filter (fun b => !b)).length := by
  unfold publish_events
  have hempty : events.isEmpty = false := by
    cases events with
    | nil => exact absurd rfl hne
    | cons x xs => simp
  rw [hempty]
  simp only [Bool.false_eq_true, ite_false]
  rw [create_batches_flatten events batchSize hb]
  rw [zip_filter_snd_length events outcome hlen]
  have := filter_true_add_filter_false outcome
  omega

/-- Witness for `publish_events_success_count`: three events, one failed
future, success count 2 = 3 − 1. -/
theorem publish_events_success_count_witness :
    publish_events 2 [10, 20, 30] [true, false, true] = 2 :=
  (publish_events_success_count 2 [10, 20, 30] [true, false, true]
    (by decide) (by decide) (by decide)).trans (by decide)

/-! ## Wire format: `json.dumps(·, ensure_ascii=False)` and `json.loads`

The producer serializes each event record with
`json.dumps(event, ensure_ascii=False).encode('utf-8')` and the consumer
applies `message.data.decode('utf-8')` followed by `json.loads`.  The
stdlib codec is modelled on the integer-number fragment of JSON
(floating-point literals are outside the embedding); strings are lists of
Unicode code points. -/

/-- JSON values (integer-number fragment). -/
inductive Json where
  | null
  | bool (b : Bool)
  | num (n : Int)
  | str (s : List Nat)
  | arr (elems : List Json)
  | obj (members : List (List Nat × Json))
deriving Repr

/-- ASCII decimal-digit test on code points. -/
def isDigit (c : Nat) : Bool :=
  decide (48 ≤ c) && decide (c ≤ 57)

/-- Lowercase hexadecimal digit for a value below 16 (Python `'%x'`). -/
def hexDigitChar (n : Nat) : Nat :=
  if n < 10 then 48 + n else 87 + n

/-- Value of a hexadecimal digit code point. -/
def hexVal (c : Nat) : Option Nat :=
  if 48 ≤ c ∧ c ≤ 57 then some (c - 48)
  else if 97 ≤ c ∧ c ≤ 102 then some (c - 87)
  else if 65 ≤ c ∧ c ≤ 70 then some (c - 55)
  else none

/-- Python `json.dumps` escaping with `ensure_ascii=False`: escape the
quote, the backslash and control characters (short escapes for the usual
ones, `\u00XX` otherwise); every other code point passes through. -/
def escChar (c : Nat) : List Nat :=
  if c = 34 then [92, 34]
  else if c = 92 then [92, 92]
  else if c = 8 then [92, 98]
  else if c = 9 then [92, 116]
  else if c = 10 then [92, 110]
  else if c = 12 then [92, 102]
  else if c = 13 then [92, 114]
  else if c < 32 then [92, 117, 48, 48, hexDigitChar (c / 16), hexDigitChar (c % 16)]
  else [c]

/-- A JSON string literal: quote, escaped body, quote. -/
def printString (s : List Nat) : List Nat :=
  34 :: (s.map escChar).flatten ++ [34]

/-- Decimal digits of a natural number, most significant first. -/
def natDigits (n : Nat) : List Nat :=
  if h : n < 10 then [48 + n]
  else natDigits (n / 10) ++ [48 + n % 10]
termination_by n
decreasing_by omega

/-- Python `repr` of an integer. -/
def printInt (n : Int) : List Nat :=
  if n < 0 then 45 :: natDigits n.natAbs else natDigits n.natAbs

mutual

/-- `json.dumps(·, ensure_ascii=False)` with the default separators
`', '` and `': '`, as a list of code points. -/
def printv : Json → List Nat
  | .null => [110, 117, 108, 108]
  | .bool true => [116, 114, 117, 101]
  | .bool false => [102, 97, 108, 115, 101]
  | .num n => printInt n
  | .str s => printString s
  | .arr [] => [91, 93]
  | .arr (e :: es) => 91 :: printElems e es ++ [93]
  | .obj [] => [123, 125]
  | .obj (m :: ms) => 123 :: printMembers m ms ++ [125]
termination_by v => sizeOf v

/-- Comma-space-separated array elements. -/
def printElems : Json → List Json → List Nat
  | e, [] => printv e
  | e, e2 :: es => printv e ++ [44, 32] ++ printElems e2 es
termination_by e es => sizeOf e + sizeOf es

/-- Comma-space-separated object members, each `"key": value`. -/
def printMembers : (List Nat × Json) → List (List Nat × Json) → List Nat
  | (k, v), [] => printString k ++ [58, 32] ++ printv v
  | (k, v), m2 :: ms => printString k ++ [58, 32] ++ printv v ++ [44, 32] ++ printMembers m2 ms
termination_by m ms => sizeOf m + sizeOf ms

end

/-- `json.dumps(event, ensure_ascii=False)`. -/
def json_dumps (v : Json) : List Nat :=
  printv v

/-- UTF-8 encoding of one Unicode code point. -/
def utf8EncodeChar (c : Nat) : List Nat :=
  if c < 128 then [c]
  else if c < 2048 then [192 + c / 64, 128 + c % 64]
  else if c < 65536 then [224 + c / 4096, 128 + c / 64 % 64, 128 + c % 64]
  else [240 + c / 262144, 128 + c / 4096 % 64, 128 + c / 64 % 64, 128 + c % 64]

/-- `str.encode('utf-8')`. -/
def utf8Encode (s : List Nat) : List Nat :=
  (s.map utf8EncodeChar).flatten

/-- `bytes.decode('utf-8')`: strict decoding, rejecting truncated or
malformed sequences, overlong encodings, surrogates and values beyond
U+10FFFF. -/
def utf8Decode : List Nat → Option (List Nat)
  | [] => some []
  | b :: rest =>
    if b < 128 then (utf8Decode rest).map (fun s => b :: s)
    else if b < 194 then none
    else if b < 224 then
      match rest with
      | [] => none
      | b1 :: r =>
        if 128 ≤ b1 ∧ b1 < 192 then
          (utf8Decode r).map (fun s => ((b - 192) * 64 + (b1 - 128)) :: s)
        else none
    else if b < 240 then
      match rest with
      | [] => none
      | b1 :: r2 =>
        match r2 with
        | [] => none
        | b2 :: r =>
          if (128 ≤ b1 ∧ b1 < 192) ∧ (128 ≤ b2 ∧ b2 < 192) then
            let c := (b - 224) * 4096 + (b1 - 128) * 64 + (b2 - 128)
            if 2048 ≤ c ∧ ¬(55296 ≤ c ∧ c < 57344) then
              (utf8Decode r).map (fun s => c :: s)
            else none
          else none
    else if b < 245 then
      match rest with
      | [] => none
      | b1 :: r2 =>
        match r2 with
        | [] => none
        | b2 :: r3 =>
          match r3 with
          | [] => none
          | b3 :: r =>
            if (128 ≤ b1 ∧ b1 < 192) ∧ ((128 ≤ b2 ∧ b2 < 192) ∧ (128 ≤ b3 ∧ b3 < 192)) then
              let c := (b - 240) * 262144 + (b1 - 128) * 4096 + (b2 - 128) * 64 + (b3 - 128)
              if 65536 ≤ c ∧ c < 1114112 then
                (utf8Decode r).map (fun s => c :: s)
              else none
            else none
    else none

/-- The serialized Pub/Sub message body built by `publish_events`:
`json.dumps(event, ensure_ascii=False).encode('utf-8')`. -/
def message_data (event : Json) : List Nat :=
  utf8Encode (json_dumps event)

/-- JSON insignificant whitespace (`' '`, `'\t'`, `'\n'`, `'\r'`). -/
def isJsonWs (c : Nat) : Bool :=
  decide (c = 32) || decide (c = 9) || decide (c = 10) || decide (c = 13)

/-- Skip insignificant whitespace. -/
def skipWs : List Nat → List Nat
  | [] => []
  | c :: rest => if isJsonWs c then skipWs rest else c :: rest

/-- Value of a most-significant-first digit string. -/
def digitsToNat (ds : List Nat) : Nat :=
  ds.foldl (fun a c => a * 10 + (c - 48)) 0

/-- Parse an integer literal greedily (optional minus sign, then digits). -/
def parseNumber (s : List Nat) : Option (Json × List Nat) :=
  match s with
  | [] => none
  | c :: rest =>
    if c = 45 then
      let ds := rest.takeWhile isDigit
      if ds.isEmpty then none
      else some (.num (-(digitsToNat ds : Int)), rest.dropWhile isDigit)
    else
      let ds := (c :: rest).takeWhile isDigit
      if ds.isEmpty then none
      else some (.num ((digitsToNat ds : Int)), (c :: rest).dropWhile isDigit)

/-- Parse the body of a string literal after the opening quote, handling
the escape sequences of `json.loads` and rejecting raw control characters
(strict mode). -/
def parseStringBody : List Nat → Option (List Nat × List Nat)
  | [] => none
  | c :: rest =>
    if c = 34 then some ([], rest)
    else if c = 92 then
      match rest with
      | [] => none
      | e :: r2 =>
        if e = 34 then (parseStringBody r2).map (fun p => (34 :: p.1, p.2))
        else if e = 92 then (parseStringBody r2).map (fun p => (92 :: p.1, p.2))
        else if e = 47 then (parseStringBody r2).map (fun p => (47 :: p.1, p.2))
        else if e = 98 then (parseStringBody r2).map (fun p => (8 :: p.1, p.2))
        else if e = 116 then (parseStringBody r2).map (fun p => (9 :: p.1, p.2))
        else if e = 110 then (parseStringBody r2).map (fun p => (10 :: p.1, p.2))
        else if e = 102 then (parseStringBody r2).map (fun p => (12 :: p.1, p.2))
        else if e = 114 then (parseStringBody r2).map (fun p => (13 :: p.1, p.2))
        else if e = 117 then
          match r2 with
          | h1 :: h2 :: h3 :: h4 :: r3 =>
            match hexVal h1, hexVal h2, hexVal h3, hexVal h4 with
            | some v1, some v2, some v3, some v4 =>
              (parseStringBody r3).map
                (fun p => ((v1 * 4096 + v2 * 256 + v3 * 16 + v4) :: p.1, p.2))
            | _, _, _, _ => none
          | _ => none
        else none
    else if c < 32 then none
    else (parseStringBody rest).map (fun p => (c :: p.1, p.2))

mutual

/-- Fueled recursive-descent JSON value scanner (`json.loads` core).
Expects leading whitespace already skipped. -/
def parseValue : Nat → List Nat → Option (Json × List Nat)
  | 0, _ => none
  | _ + 1, [] => none
  | fuel + 1, c :: rest =>
    if c = 110 then
      match rest with
      | 117 :: 108 :: 108 :: r => some (.null, r)
      | _ => none
    else if c = 116 then
      match rest with
      | 114 :: 117 :: 101 :: r => some (.bool true, r)
      | _ => none
    else if c = 102 then
      match rest with
      | 97 :: 108 :: 115 :: 101 :: r => some (.bool false, r)
      | _ => none
    else if c = 34 then
      (parseStringBody rest).map (fun p => (.str p.1, p.2))
    else if c = 91 then
      match skipWs rest with
      | [] => none
      | c2 :: r2 =>
        if c2 = 93 then some (.arr [], r2)
        else
          match parseElements fuel (c2 :: r2) with
          | some (es, r) => some (.arr es, r)
          | none => none
    else if c = 123 then
      match skipWs rest with
      | [] => none
      | c2 :: r2 =>
        if c2 = 125 then some (.obj [], r2)
        else
          match parseMembers fuel (c2 :: r2) with
          | some (ms, r) => some (.obj ms, r)
          | none => none
    else if c = 45 || isDigit c then parseNumber (c :: rest)
    else none

/-- Parse one or more comma-separated array elements up to the closing
bracket. -/
def parseElements : Nat → List Nat → Option (List Json × List Nat)
  | 0, _ => none
  | fuel + 1, s =>
    match parseValue fuel s with
    | none => none
    | some (v, r) =>
      match skipWs r with
      | [] => none
      | c2 :: r2 =>
        if c2 = 44 then
          match parseElements fuel (skipWs r2) with
          | some (es, r3) => some (v :: es, r3)
          | none => none
        else if c2 = 93 then some ([v], r2)
        else none

/-- Parse one or more comma-separated object members up to the closing
brace. -/
def parseMembers : Nat → List Nat → Option (List (List Nat × Json) × List Nat)
  | 0, _ => none
  | fuel + 1, s =>
    match s with
    | [] => none
    | c0 :: r0 =>
      if c0 = 34 then
        match parseStringBody r0 with
        | none => none
        | some (k, r1) =>
          match skipWs r1 with
          | [] => none
          | c1 :: r2 =>
            if c1 = 58 then
              match parseValue fuel (skipWs r2) with
              | none => none
              | some (v, r3) =>
                match skipWs r3 with
                | [] => none
                | c3 :: r4 =>
                  if c3 = 44 then
                    match parseMembers fuel (skipWs r4) with
                    | some (ms, r5) => some ((k, v) :: ms, r5)
                    | none => none
                  else if c3 = 125 then some ([(k, v)], r4)
                  else none
            else none
      else none

end

/-- `json.loads`: skip leading whitespace, scan one value, and require only
whitespace to remain. -/
def json_loads (s : List Nat) : Option Json :=
  let s1 := skipWs s
  match parseValue (s1.length + 1) s1 with
  | some (v, rest) => if (skipWs rest).isEmpty then some v else none
  | none => none

/-! ## Pull-consumer (`process_messages.py`) -/

/-- One pulled message: its acknowledgment id and payload bytes. -/
structure ReceivedMessage where
  ackId : Nat
  data : List Nat
deriving Repr, DecidableEq

/-- The outcome of one `subscriber.pull` call: a batch of messages together
with whether the subsequent `acknowledge` call for the batch raises, or a
raised pull exception. -/
inductive PullStep where
  | batch (msgs : List ReceivedMessage) (ackFails : Bool)
  | pullError
deriving Repr, DecidableEq

/-- `GitHubEventProcessor.process_single_message`: UTF-8 decode (failure
returns `False`), JSON parse (failure returns `False`), require a dict
(failure returns `False`); the per-type dispatch only logs — an unknown
`type` is a warning and the message still succeeds. -/
def process_single_message (data : List Nat) : Bool :=
  match utf8Decode data with
  | none => false
  | some raw =>
    match json_loads raw with
    | none => false
    | some (Json.obj _) => true
    | some _ => false

/-- Ack-ids collected for one batch: exactly the messages whose processing
returned success. -/
def batchAckIds (msgs : List ReceivedMessage) : List Nat :=
  (msgs.filter (fun m => process_single_message m.data)).map (fun m => m.ackId)

/-- Per-batch processed tally. -/
def batchProcessed (msgs : List ReceivedMessage) : Nat :=
  (msgs.filter (fun m => process_single_message m.data)).length

/-- Per-batch failed tally. -/
def batchFailed (msgs : List ReceivedMessage) : Nat :=
  (msgs.filter (fun m => !process_single_message m.data)).length

/-- The acknowledge attempts issued for one batch: one call with the
collected ack-ids when any exist (recording whether that call raised, which
is caught and logged), none otherwise. -/
def batchAckCalls (msgs : List ReceivedMessage) (ackFails : Bool) : List (List Nat × Bool) :=
  if (batchAckIds msgs).isEmpty then [] else [(batchAckIds msgs, ackFails)]

/-- Observable outcome of one `pull_and_process_all` run: the returned
`(total_processed, total_failed)` pair plus the acknowledge calls issued. -/
structure ConsumerRun where
  totalProcessed : Nat
  totalFailed : Nat
  ackCalls : List (List Nat × Bool)
deriving Repr, DecidableEq

/-- `GitHubEventProcessor.pull_and_process_all` over a list of successive
pull outcomes: an empty pull (or exhausted outcome list) breaks the loop; a
raised pull exception is caught and breaks the loop; otherwise the batch is
processed, successful ack-ids acknowledged (an acknowledge exception is
caught and ignored), tallies accumulated, and the loop continues only when
the batch was not smaller than the requested maximum. -/
def pull_and_process_all (maxMessages : Nat) : List PullStep → ConsumerRun
  | [] => ⟨0, 0, []⟩
  | PullStep.pullError :: _ => ⟨0, 0, []⟩
  | PullStep.batch msgs af :: rest =>
    if msgs.isEmpty then ⟨0, 0, []⟩
    else
      let pc := batchProcessed msgs
      let fc := batchFailed msgs
      let acks := batchAckCalls msgs af
      if msgs.length < maxMessages then ⟨pc, fc, acks⟩
      else
        let r := pull_and_process_all maxMessages rest
        ⟨pc + r.totalProcessed, fc + r.totalFailed, acks ++ r.ackCalls⟩

/-- C7: a nonempty pull smaller than the requested maximum ends the loop
with that batch's tallies (later pull outcomes are never consumed), while a
pull of exactly the requested maximum processes the batch and continues. -/
theorem consumer_loop_termination (maxM : Nat) (msgs : List ReceivedMessage)
    (af : Bool) (rest : List PullStep) (hne : msgs ≠ []) :
    (msgs.length < maxM →
      pull_and_process_all maxM (PullStep.batch msgs af :: rest)
        = ⟨batchProcessed msgs, batchFailed msgs, batchAckCalls msgs af⟩) ∧
    (msgs.length = maxM →
      pull_and_process_all maxM (PullStep.batch msgs af :: rest)
        = ⟨batchProcessed msgs + (pull_and_process_all maxM rest).totalProcessed,
           batchFailed msgs + (pull_and_process_all maxM rest).totalFailed,
           batchAckCalls msgs af ++ (pull_and_process_all maxM rest).ackCalls⟩) := by
  have hempty : msgs.isEmpty = false := by
    cases msgs with
    | nil => exact absurd rfl hne
    | cons x xs => simp
  constructor
  · intro hlt
    simp [pull_and_process_all, hempty, hlt]
  · intro heq
    have hnlt : ¬ msgs.length < maxM := by omega
    simp [pull_and_process_all, hempty, hnlt]

/-- Witness for `consumer_loop_termination`: one single-message pull with a
requested maximum of 2. -/
theorem consumer_loop_termination_witness :
    pull_and_process_all 2 (PullStep.batch [⟨1, [123, 125]⟩] false :: [PullStep.pullError])
      = ⟨batchProcessed [⟨1, [123, 125]⟩], batchFailed [⟨1, [123, 125]⟩],
         batchAckCalls [⟨1, [123, 125]⟩] false⟩ :=
  (consumer_loop_termination 2 [⟨1, [123, 125]⟩] false [PullStep.pullError]
    (by decide)).1 (by decide)

/-- C9: when a full batch is followed by a pull that raises, the exception
is swallowed, the loop stops, and the run returns the tallies accumulated
from the earlier batch; a truncated run whose pulled messages all succeeded
reports zero failures. -/
theorem pull_error_truncates (maxM : Nat) (msgs : List ReceivedMessage) (af : Bool)
    (rest : List PullStep) (hne : msgs ≠ []) (hfull : ¬ msgs.length < maxM) :
    pull_and_process_all maxM (PullStep.batch msgs af :: PullStep.pullError :: rest)
      = ⟨batchProcessed msgs, batchFailed msgs, batchAckCalls msgs af⟩ ∧
    ((∀ m ∈ msgs, process_single_message m.data = true) →
      (pull_and_process_all maxM
          (PullStep.batch msgs af :: PullStep.pullError :: rest)).totalFailed = 0) := by
  have hempty : msgs.isEmpty = false := by
    cases msgs with
    | nil => exact absurd rfl hne
    | cons x xs => simp
  have hrun : pull_and_process_all maxM
      (PullStep.batch msgs af :: PullStep.pullError :: rest)
      = ⟨batchProcessed msgs, batchFailed msgs, batchAckCalls msgs af⟩ := by
    simp [pull_and_process_all, hempty, hfull]
  refine ⟨hrun, ?_⟩
  intro hall
  rw [hrun]
  show batchFailed msgs = 0
  unfold batchFailed
  rw [List.length_eq_zero]
  rw [List.filter_eq_nil_iff]
  intro m hm
  rw [hall m hm]
  simp

/-- Witness for `pull_error_truncates`: a full 1-message batch whose message
parses, followed by a raising pull; the run reports one processed, zero
failed. -/
theorem pull_error_truncates_witness :
    pull_and_process_all 1 (PullStep.batch [⟨1, [123, 125]⟩] false
        :: PullStep.pullError :: [])
      = ⟨batchProcessed [⟨1, [123, 125]⟩], batchFailed [⟨1, [123, 125]⟩],
         batchAckCalls [⟨1, [123, 125]⟩] false⟩ ∧
    ((∀ m ∈ [(⟨1, [123, 125]⟩ : ReceivedMessage)], process_single_message m.data = true) →
      (pull_and_process_all 1 (PullStep.batch [⟨1, [123, 125]⟩] false
          :: PullStep.pullError :: [])).totalFailed = 0) :=
  pull_error_truncates 1 [⟨1, [123, 125]⟩] false [] (by decide) (by decide)

/-- C10: an acknowledge failure for a batch is swallowed: the run's tallies
equal those of the same run whose acknowledge succeeded, the batch's
acknowledge is attempted exactly once (never retried), and the tallies are
the ones computed before the acknowledge attempt. -/
theorem ack_failure_swallowed (maxM : Nat) (msgs : List ReceivedMessage)
    (rest : List PullStep) (hne : msgs ≠ []) :
    (pull_and_process_all maxM (PullStep.batch msgs true :: rest)).totalProcessed
      = (pull_and_process_all maxM (PullStep.batch msgs false :: rest)).totalProcessed ∧
    (pull_and_process_all maxM (PullStep.batch msgs true :: rest)).totalFailed
      = (pull_and_process_all maxM (PullStep.batch msgs false :: rest)).totalFailed ∧
    (msgs.length < maxM →
      pull_and_process_all maxM (PullStep.batch msgs true :: rest)
        = ⟨batchProcessed msgs, batchFailed msgs, batchAckCalls msgs true⟩) ∧
    (¬ msgs.length < maxM →
      (pull_and_process_all maxM (PullStep.batch msgs true :: rest)).ackCalls
        = batchAckCalls msgs true ++ (pull_and_process_all maxM rest).ackCalls) := by
  have hempty : msgs.isEmpty = false := by
    cases msgs with
    | nil => exact absurd rfl hne
    | cons x xs => simp
  by_cases hlt : msgs.length < maxM
  · refine ⟨?_, ?_, ?_, ?_⟩ <;>
      simp [pull_and_process_all, hempty, hlt]
  · refine ⟨?_, ?_, ?_, ?_⟩ <;>
      simp [pull_and_process_all, hempty, hlt]

/-- Witness for `ack_failure_swallowed`: a single-message batch whose
acknowledge call raises. -/
theorem ack_failure_swallowed_witness :
    (pull_and_process_all 2 (PullStep.batch [⟨1, [123, 125]⟩] true :: [])).totalProcessed
      = (pull_and_process_all 2 (PullStep.batch [⟨1, [123, 125]⟩] false :: [])).totalProcessed ∧
    (pull_and_process_all 2 (PullStep.batch [⟨1, [123, 125]⟩] true :: [])).totalFailed
      = (pull_and_process_all 2 (PullStep.batch [⟨1, [123, 125]⟩] false :: [])).totalFailed ∧
    (([(⟨1, [123, 125]⟩ : ReceivedMessage)]).length < 2 →
      pull_and_process_all 2 (PullStep.batch [⟨1, [123, 125]⟩] true :: [])
        = ⟨batchProcessed [⟨1, [123, 125]⟩], batchFailed [⟨1, [123, 125]⟩],
           batchAckCalls [⟨1, [123, 125]⟩] true⟩) ∧
    (¬ ([(⟨1, [123, 125]⟩ : ReceivedMessage)]).length < 2 →
      (pull_and_process_all 2 (PullStep.batch [⟨1, [123, 125]⟩] true :: [])).ackCalls
        = batchAckCalls [⟨1, [123, 125]⟩] true
            ++ (pull_and_process_all 2 ([] : List PullStep)).ackCalls) :=
  ack_failure_swallowed 2 [⟨1, [123, 125]⟩] [] (by decide)

/-- C6: a message whose payload decodes as text but fails JSON parsing is
reported failed, its ack-id is excluded from the batch's acknowledge call,
it is counted in the failed tally, and every other successfully processed
message is still acknowledged; the run's tallies for the batch are the
usual per-batch counts. -/
theorem bad_json_message_isolated (maxM : Nat) (msgs : List ReceivedMessage)
    (af : Bool) (m : ReceivedMessage) (raw : List Nat)
    (hmem : m ∈ msgs) (hdec : utf8Decode m.data = some raw)
    (hbad : json_loads raw = none)
    (hinj : ∀ m2 ∈ msgs, m2.ackId = m.ackId → m2 = m)
    (hsmall : msgs.length < maxM) :
    process_single_message m.data = false ∧
    m.ackId ∉ batchAckIds msgs ∧
    0 < batchFailed msgs ∧
    (∀ m2 ∈ msgs, process_single_message m2.data = true → m2.ackId ∈ batchAckIds msgs) ∧
    (pull_and_process_all maxM [PullStep.batch msgs af]).totalProcessed
        = batchProcessed msgs ∧
    (pull_and_process_all maxM [PullStep.batch msgs af]).totalFailed
        = batchFailed msgs := by
  have hempty : msgs.isEmpty = false := by
    cases msgs with
    | nil => simp at hmem
    | cons x xs => simp
  have hp : process_single_message m.data = false := by
    simp [process_single_message, hdec, hbad]
  refine ⟨hp, ?_, ?_, ?_, ?_, ?_⟩
  · intro hack
    unfold batchAckIds at hack
    obtain ⟨m2, hm2, hid⟩ := List.mem_map.mp hack
    obtain ⟨hm2mem, hm2p⟩ := List.mem_filter.mp hm2
    have hm2eq : m2 = m := hinj m2 hm2mem hid
    rw [hm2eq] at hm2p
    rw [hp] at hm2p
    exact Bool.false_ne_true hm2p
  · have hmf : m ∈ msgs.filter (fun x => !process_single_message x.data) :=
      List.mem_filter.mpr ⟨hmem, by rw [hp]; rfl⟩
    exact List.length_pos_of_mem hmf
  · intro m2 h2 hp2
    exact List.mem_map_of_mem _ (List.mem_filter.mpr ⟨h2, by simpa using hp2⟩)
  · simp [pull_and_process_all, hempty, hsmall]
  · simp [pull_and_process_all, hempty, hsmall]

/-- Witness for `bad_json_message_isolated`: a two-message batch where the
second message's payload `"x"` is valid UTF-8 but not JSON. -/
theorem bad_json_message_isolated_witness :
    process_single_message (⟨2, [120]⟩ : ReceivedMessage).data = false ∧
    (⟨2, [120]⟩ : ReceivedMessage).ackId ∉ batchAckIds [⟨1, [123, 125]⟩, ⟨2, [120]⟩] ∧
    0 < batchFailed [⟨1, [123, 125]⟩, ⟨2, [120]⟩] ∧
    (∀ m2 ∈ [(⟨1, [123, 125]⟩ : ReceivedMessage), ⟨2, [120]⟩],
      process_single_message m2.data = true →
        m2.ackId ∈ batchAckIds [⟨1, [123, 125]⟩, ⟨2, [120]⟩]) ∧
    (pull_and_process_all 3 [PullStep.batch [⟨1, [123, 125]⟩, ⟨2, [120]⟩] false]).totalProcessed
        = batchProcessed [⟨1, [123, 125]⟩, ⟨2, [120]⟩] ∧
    (pull_and_process_all 3 [PullStep.batch [⟨1, [123, 125]⟩, ⟨2, [120]⟩] false]).totalFailed
        = batchFailed [⟨1, [123, 125]⟩, ⟨2, [120]⟩] :=
  bad_json_message_isolated 3 [⟨1, [123, 125]⟩, ⟨2, [120]⟩] false ⟨2, [120]⟩ [120]
    (by simp) (by rfl) (by rfl)
    (by decide) (by decide)

/-! ### Round-trip support lemmas -/

/-- `skipWs` is the identity on input not starting with whitespace. -/
theorem skipWs_cons_not_ws (c : Nat) (rest : List Nat) (h : isJsonWs c = false) :
    skipWs (c :: rest) = c :: rest := by
  simp [skipWs, h]

/-- Every code point printed by `natDigits` is a decimal digit. -/
theorem natDigits_digits : ∀ n : Nat, ∀ c ∈ natDigits n, isDigit c = true := by
  intro n
  induction n using Nat.strong_induction_on with
  | _ n ih =>
    rw [natDigits]
    split
    · next h =>
      intro c hc
      simp only [List.mem_singleton] at hc
      subst hc
      simp [isDigit]
      omega
    · next h =>
      intro c hc
      rw [List.mem_append] at hc
      rcases hc with h2 | h2
      · exact ih (n / 10) (by omega) c h2
      · simp only [List.mem_singleton] at h2
        subst h2
        simp [isDigit]
        omega

/-- `natDigits` is nonempty and starts with a digit. -/
theorem natDigits_head : ∀ n : Nat, ∃ d ds, natDigits n = d :: ds ∧ isDigit d = true := by
  intro n
  induction n using Nat.strong_induction_on with
  | _ n ih =>
    rw [natDigits]
    split
    · refine ⟨48 + n, [], rfl, ?_⟩
      simp [isDigit]
      omega
    · next h =>
      obtain ⟨d, ds, hd, hdig⟩ := ih (n / 10) (by omega)
      exact ⟨d, ds ++ [48 + n % 10], by rw [hd]; rfl, hdig⟩

/-- `takeWhile`/`dropWhile` split an append whose left part satisfies the
predicate everywhere and whose right part does not start with it. -/
theorem takeWhile_append_all (p : Nat → Bool) :
    ∀ (xs ys : List Nat), (∀ c ∈ xs, p c = true) →
      (∀ y r, ys = y :: r → p y = false) →
      (xs ++ ys).takeWhile p = xs ∧ (xs ++ ys).dropWhile p = ys := by
  intro xs
  induction xs with
  | nil =>
    intro ys _ hy
    constructor
    · cases ys with
      | nil => rfl
      | cons y r => simp [List.takeWhile_cons, hy y r rfl]
    · cases ys with
      | nil => rfl
      | cons y r => simp [List.dropWhile_cons, hy y r rfl]
  | cons x xs ih =>
    intro ys hx hy
    have hpx : p x = true := hx x (by simp)
    have h2 := ih ys (fun c hc => hx c (by simp [hc])) hy
    constructor
    · simp [List.takeWhile_cons, hpx, h2.1]
    · simp [List.dropWhile_cons, hpx, h2.2]

/-- Reading back the printed digits of a natural number. -/
theorem digitsToNat_natDigits : ∀ n : Nat, digitsToNat (natDigits n) = n := by
  intro n
  induction n using Nat.strong_induction_on with
  | _ n ih =>
    rw [natDigits]
    split
    · simp [digitsToNat]
    · next h =>
      have ih2 := ih (n / 10) (by omega)
      unfold digitsToNat at ih2 ⊢
      rw [List.foldl_append, ih2]
      simp
      omega

/-- Input head test used by the number round trip: the remaining input must
not begin with a digit (or the greedy scan would continue into it). -/
def noDigitHead : List Nat → Bool
  | [] => true
  | c :: _ => !isDigit c

theorem noDigitHead_head (ys : List Nat) (h : noDigitHead ys = true) :
    ∀ y r, ys = y :: r → isDigit y = false := by
  intro y r hy
  subst hy
  simpa [noDigitHead] using h

/-- `parseNumber` reads back exactly a printed integer. -/
theorem parseNumber_print (n : Int) (rest : List Nat) (hrest : noDigitHead rest = true) :
    parseNumber (printInt n ++ rest) = some (.num n, rest) := by
  obtain ⟨d, ds, hd, hdig⟩ := natDigits_head n.natAbs
  have hall : ∀ c ∈ natDigits n.natAbs, isDigit c = true := natDigits_digits n.natAbs
  have hy : ∀ y r, rest = y :: r → isDigit y = false := noDigitHead_head rest hrest
  have htd := takeWhile_append_all isDigit (natDigits n.natAbs) rest hall hy
  by_cases hneg : n < 0
  · have hshape : printInt n ++ rest = 45 :: (natDigits n.natAbs ++ rest) := by
      rw [printInt, if_pos hneg]
      rfl
    rw [hshape]
    simp only [parseNumber]
    simp only [if_true]
    rw [htd.1, htd.2]
    rw [hd]
    simp only [List.isEmpty_cons, Bool.false_eq_true, if_false]
    rw [← hd, digitsToNat_natDigits]
    have hn : -((n.natAbs : Int)) = n := by omega
    rw [hn]
  · obtain ⟨hd48, hd57⟩ : 48 ≤ d ∧ d ≤ 57 := by
      simpa [isDigit] using hdig
    have hshape : printInt n ++ rest = d :: (ds ++ rest) := by
      rw [printInt, if_neg hneg, hd]
      rfl
    rw [hshape]
    simp only [parseNumber]
    have h45 : ¬ (d = 45) := by omega
    rw [if_neg h45]
    have hre : d :: (ds ++ rest) = natDigits n.natAbs ++ rest := by
      rw [hd]
      rfl
    rw [hre]
    rw [htd.1, htd.2]
    rw [hd]
    simp only [List.isEmpty_cons, Bool.false_eq_true, if_false]
    rw [← hd, digitsToNat_natDigits]
    have hn : ((n.natAbs : Int)) = n := by omega
    rw [hn]

/-- `hexVal` inverts `hexDigitChar` below 16. -/
theorem hexVal_hexDigitChar (x : Nat) (hx : x < 16) : hexVal (hexDigitChar x) = some x := by
  by_cases h10 : x < 10
  · rw [hexDigitChar, if_pos h10]
    unfold hexVal
    rw [if_pos (by omega)]
    have he : 48 + x - 48 = x := by omega
    rw [he]
  · rw [hexDigitChar, if_neg h10]
    unfold hexVal
    rw [if_neg (by omega), if_pos (by omega)]
    have he : 87 + x - 87 = x := by omega
    rw [he]

/-- `parseStringBody` reads back an escaped string body up to the closing
quote, leaving the rest of the input untouched. -/
theorem parseStringBody_escape :
    ∀ (s rest : List Nat),
      parseStringBody ((s.map escChar).flatten ++ 34 :: rest) = some (s, rest) := by
  intro s
  induction s with
  | nil =>
    intro rest
    simp only [List.map_nil, List.flatten_nil, List.nil_append]
    rw [parseStringBody.eq_def]
    rfl
  | cons c s2 ih =>
    intro rest
    simp only [List.map_cons, List.flatten_cons, List.append_assoc]
    by_cases h1 : c = 34
    · subst h1
      rw [show escChar 34 = [92, 34] from rfl]
      simp only [List.cons_append, List.nil_append]
      rw [parseStringBody.eq_def]
      simp only []
      rw [ih rest]
      rfl
    by_cases h2 : c = 92
    · subst h2
      rw [show escChar 92 = [92, 92] from rfl]
      simp only [List.cons_append, List.nil_append]
      rw [parseStringBody.eq_def]
      simp only []
      rw [ih rest]
      rfl
    by_cases h3 : c = 8
    · subst h3
      rw [show escChar 8 = [92, 98] from rfl]
      simp only [List.cons_append, List.nil_append]
      rw [parseStringBody.eq_def]
      simp only []
      rw [ih rest]
      rfl
    by_cases h4 : c = 9
    · subst h4
      rw [show escChar 9 = [92, 116] from rfl]
      simp only [List.cons_append, List.nil_append]
      rw [parseStringBody.eq_def]
      simp only []
      rw [ih rest]
      rfl
    by_cases h5 : c = 10
    · subst h5
      rw [show escChar 10 = [92, 110] from rfl]
      simp only [List.cons_append, List.nil_append]
      rw [parseStringBody.eq_def]
      simp only []
      rw [ih rest]
      rfl
    by_cases h6 : c = 12
    · subst h6
      rw [show escChar 12 = [92, 102] from rfl]
      simp only [List.cons_append, List.nil_append]
      rw [parseStringBody.eq_def]
      simp only []
      rw [ih rest]
      rfl
    by_cases h7 : c = 13
    · subst h7
      rw [show escChar 13 = [92, 114] from rfl]
      simp only [List.cons_append, List.nil_append]
      rw [parseStringBody.eq_def]
      simp only []
      rw [ih rest]
      rfl
    by_cases h8 : c < 32
    · rw [escChar]
      rw [if_neg h1, if_neg h2, if_neg h3, if_neg h4, if_neg h5, if_neg h6, if_neg h7,
        if_pos h8]
      show parseStringBody
          (92 :: 117 :: 48 :: 48 :: hexDigitChar (c / 16) :: hexDigitChar (c % 16)
            :: ((s2.map escChar).flatten ++ 34 :: rest)) = _
      rw [parseStringBody.eq_def]
      simp only []
      rw [show hexVal 48 = some 0 from rfl]
      rw [hexVal_hexDigitChar (c / 16) (by omega), hexVal_hexDigitChar (c % 16) (by omega)]
      simp only []
      rw [ih rest]
      have hval : 0 * 4096 + 0 * 256 + c / 16 * 16 + c % 16 = c := by omega
      rw [hval]
      rfl
    · rw [escChar]
      rw [if_neg h1, if_neg h2, if_neg h3, if_neg h4, if_neg h5, if_neg h6, if_neg h7,
        if_neg h8]
      show parseStringBody (c :: ((s2.map escChar).flatten ++ 34 :: rest)) = _
      rw [parseStringBody.eq_def]
      simp only []
      rw [if_neg h1, if_neg h2, if_neg h8]
      rw [ih rest]
      rfl

mutual

/-- Node count of a JSON value, used to bound the parser fuel. -/
def jsize : Json → Nat
  | .null => 1
  | .bool _ => 1
  | .num _ => 1
  | .str _ => 1
  | .arr es => 1 + jsizeList es
  | .obj ms => 1 + jsizeMembers ms
termination_by v => sizeOf v

/-- Node count of an array's elements. -/
def jsizeList : List Json → Nat
  | [] => 0
  | e :: es => 1 + jsize e + jsizeList es
termination_by es => sizeOf es

/-- Node count of an object's members. -/
def jsizeMembers : List (List Nat × Json) → Nat
  | [] => 0
  | (_, v) :: ms => 1 + jsize v + jsizeMembers ms
termination_by ms => sizeOf ms

end

theorem jsize_pos (v : Json) : 1 ≤ jsize v := by
  cases v <;> simp [jsize]

/-- Every printed value starts with a character that is not whitespace and
not a closing bracket. -/
theorem printv_head_shape (v : Json) :
    ∃ c r, printv v = c :: r ∧ isJsonWs c = false ∧ ¬(c = 93) := by
  cases v with
  | null => exact ⟨110, [117, 108, 108], by simp [printv], by decide, by decide⟩
  | bool b =>
    cases b with
    | true => exact ⟨116, [114, 117, 101], by simp [printv], by decide, by decide⟩
    | false => exact ⟨102, [97, 108, 115, 101], by simp [printv], by decide, by decide⟩
  | num n =>
    by_cases hneg : n < 0
    · exact ⟨45, natDigits n.natAbs, by simp [printv, printInt, hneg], by decide, by decide⟩
    · obtain ⟨d, ds, hd, hdig⟩ := natDigits_head n.natAbs
      obtain ⟨h48, h57⟩ : 48 ≤ d ∧ d ≤ 57 := by simpa [isDigit] using hdig
      refine ⟨d, ds, ?_, ?_, by omega⟩
      · simp [printv, printInt, hneg, hd]
      · simp [isJsonWs]
        omega
  | str s =>
    exact ⟨34, (s.map escChar).flatten ++ [34], by simp [printv, printString], by decide,
      by decide⟩
  | arr es =>
    cases es with
    | nil => exact ⟨91, [93], by simp [printv], by decide, by decide⟩
    | cons e es2 =>
      exact ⟨91, printElems e es2 ++ [93], by simp [printv], by decide, by decide⟩
  | obj ms =>
    cases ms with
    | nil => exact ⟨123, [125], by simp [printv], by decide, by decide⟩
    | cons m ms2 =>
      exact ⟨123, printMembers m ms2 ++ [125], by simp [printv], by decide, by decide⟩

/-- `skipWs` leaves any printed value (plus continuation) untouched. -/
theorem skipWs_printv (v : Json) (t : List Nat) :
    skipWs (printv v ++ t) = printv v ++ t := by
  obtain ⟨c, r, hv, hws, _⟩ := printv_head_shape v
  rw [hv]
  simp only [List.cons_append]
  exact skipWs_cons_not_ws c (r ++ t) hws

/-- `printElems` begins with its first element's printed form. -/
theorem printElems_shape (e : Json) (es : List Json) :
    ∃ X, printElems e es = printv e ++ X := by
  cases es with
  | nil => exact ⟨[], by simp [printElems]⟩
  | cons e2 es2 => exact ⟨44 :: 32 :: printElems e2 es2, by simp [printElems]⟩

/-- `printMembers` begins with a quote. -/
theorem printMembers_shape (m : List Nat × Json) (ms : List (List Nat × Json)) :
    ∃ X, printMembers m ms = 34 :: X := by
  obtain ⟨k, v⟩ := m
  cases ms with
  | nil =>
    exact ⟨(k.map escChar).flatten ++ [34] ++ ([58, 32] ++ printv v),
      by simp [printMembers, printString]⟩
  | cons m2 ms2 =>
    exact ⟨(k.map escChar).flatten ++ [34] ++ ([58, 32] ++ printv v ++ [44, 32]
        ++ printMembers m2 ms2),
      by simp [printMembers, printString]⟩

/-- One-step unfolding of `parseValue` at an opening bracket. -/
theorem parseValue_open_bracket (fuel : Nat) (t : List Nat) :
    parseValue (fuel + 1) (91 :: t)
      = match skipWs t with
        | [] => none
        | c2 :: r2 =>
          if c2 = 93 then some (Json.arr [], r2)
          else
            match parseElements fuel (c2 :: r2) with
            | some (es3, r3) => some (Json.arr es3, r3)
            | none => none := rfl

/-- One-step unfolding of `parseValue` at an opening brace. -/
theorem parseValue_open_brace (fuel : Nat) (t : List Nat) :
    parseValue (fuel + 1) (123 :: t)
      = match skipWs t with
        | [] => none
        | c2 :: r2 =>
          if c2 = 125 then some (Json.obj [], r2)
          else
            match parseMembers fuel (c2 :: r2) with
            | some (ms, r) => some (Json.obj ms, r)
            | none => none := rfl

/-- One-step unfolding of `parseValue` at a quote. -/
theorem parseValue_quote (fuel : Nat) (t : List Nat) :
    parseValue (fuel + 1) (34 :: t)
      = (parseStringBody t).map (fun p => (Json.str p.1, p.2)) := rfl

/-- One-step unfolding of `parseValue` at a minus sign. -/
theorem parseValue_minus (fuel : Nat) (t : List Nat) :
    parseValue (fuel + 1) (45 :: t) = parseNumber (45 :: t) := rfl

/-- One-step unfolding of `parseValue` at a decimal digit. -/
theorem parseValue_digit (fuel : Nat) (c : Nat) (t : List Nat)
    (h48 : 48 ≤ c) (h57 : c ≤ 57) :
    parseValue (fuel + 1) (c :: t) = parseNumber (c :: t) := by
  simp only [parseValue]
  rw [if_neg (by omega), if_neg (by omega), if_neg (by omega), if_neg (by omega),
    if_neg (by omega), if_neg (by omega)]
  have hdig : isDigit c = true := by
    simp [isDigit]
    omega
  rw [if_pos (by rw [hdig, Bool.or_true])]

/-- One-step unfolding of `parseElements`. -/
theorem parseElements_succ (fuel : Nat) (s : List Nat) :
    parseElements (fuel + 1) s
      = match parseValue fuel s with
        | none => none
        | some (v, r) =>
          match skipWs r with
          | [] => none
          | c2 :: r2 =>
            if c2 = 44 then
              match parseElements fuel (skipWs r2) with
              | some (es, r3) => some (v :: es, r3)
              | none => none
            else if c2 = 93 then some ([v], r2)
            else none := rfl

/-- One-step unfolding of `parseMembers` at a quoted key. -/
theorem parseMembers_quote (fuel : Nat) (r0 : List Nat) :
    parseMembers (fuel + 1) (34 :: r0)
      = match parseStringBody r0 with
        | none => none
        | some (k, r1) =>
          match skipWs r1 with
          | [] => none
          | c1 :: r2 =>
            if c1 = 58 then
              match parseValue fuel (skipWs r2) with
              | none => none
              | some (v, r3) =>
                match skipWs r3 with
                | [] => none
                | c3 :: r4 =>
                  if c3 = 44 then
                    match parseMembers fuel (skipWs r4) with
                    | some (ms, r5) => some ((k, v) :: ms, r5)
                    | none => none
                  else if c3 = 125 then some ([(k, v)], r4)
                  else none
            else none := rfl

/-- The scanner reads back any printed value, printed element list, or
printed member list, given fuel at least the node count. -/
theorem parsePrint (fuel : Nat) :
    (∀ (v : Json) (rest : List Nat), jsize v ≤ fuel → noDigitHead rest = true →
      parseValue fuel (printv v ++ rest) = some (v, rest)) ∧
    (∀ (e : Json) (es : List Json) (rest : List Nat), jsizeList (e :: es) ≤ fuel →
      parseElements fuel (printElems e es ++ 93 :: rest) = some (e :: es, rest)) ∧
    (∀ (k : List Nat) (v : Json) (ms : List (List Nat × Json)) (rest : List Nat),
      jsizeMembers ((k, v) :: ms) ≤ fuel →
      parseMembers fuel (printMembers (k, v) ms ++ 125 :: rest) = some ((k, v) :: ms, rest)) := by
  induction fuel with
  | zero =>
    refine ⟨?_, ?_, ?_⟩
    · intro v rest hsz _
      have := jsize_pos v
      omega
    · intro e es rest hsz
      simp [jsizeList] at hsz
    · intro k v ms rest hsz
      simp [jsizeMembers] at hsz
  | succ fuel ih =>
    obtain ⟨ihV, ihE, ihM⟩ := ih
    refine ⟨?_, ?_, ?_⟩
    · intro v rest hsz hrest
      cases v with
      | null =>
        rw [show printv .null = [110, 117, 108, 108] from by simp [printv]]
        rfl
      | bool b =>
        cases b with
        | true =>
          rw [show printv (.bool true) = [116, 114, 117, 101] from by simp [printv]]
          rfl
        | false =>
          rw [show printv (.bool false) = [102, 97, 108, 115, 101] from by simp [printv]]
          rfl
      | num n =>
        by_cases hneg : n < 0
        · rw [show printv (.num n) = 45 :: natDigits n.natAbs from by
            simp [printv, printInt, hneg]]
          simp only [List.cons_append]
          rw [parseValue_minus]
          rw [show (45 : Nat) :: (natDigits n.natAbs ++ rest) = printInt n ++ rest from by
            rw [printInt, if_pos hneg]
            simp]
          exact parseNumber_print n rest hrest
        · obtain ⟨d, ds, hd, hdig⟩ := natDigits_head n.natAbs
          obtain ⟨h48, h57⟩ : 48 ≤ d ∧ d ≤ 57 := by simpa [isDigit] using hdig
          rw [show printv (.num n) = natDigits n.natAbs from by
            simp [printv, printInt, hneg]]
          rw [hd]
          simp only [List.cons_append]
          rw [parseValue_digit fuel d (ds ++ rest) h48 h57]
          rw [show d :: (ds ++ rest) = printInt n ++ rest from by
            rw [printInt, if_neg hneg, hd]
            simp]
          exact parseNumber_print n rest hrest
      | str s =>
        rw [show printv (.str s) = 34 :: ((s.map escChar).flatten ++ [34]) from by
          simp [printv, printString]]
        simp only [List.cons_append]
        rw [parseValue_quote]
        rw [List.append_assoc]
        rw [show ([34] : List Nat) ++ rest = 34 :: rest from rfl]
        rw [parseStringBody_escape s rest]
        rfl
      | arr es =>
        cases es with
        | nil =>
          rw [show printv (.arr []) = [91, 93] from by simp [printv]]
          rfl
        | cons e es2 =>
          obtain ⟨c, r, hv, hws, h93⟩ := printv_head_shape e
          obtain ⟨X, hX⟩ := printElems_shape e es2
          rw [show printv (.arr (e :: es2)) = 91 :: (printElems e es2 ++ [93]) from by
            simp [printv]]
          simp only [List.cons_append, List.append_assoc, List.nil_append]
          rw [parseValue_open_bracket]
          have hskip : skipWs (printElems e es2 ++ 93 :: rest)
              = printElems e es2 ++ 93 :: rest := by
            rw [hX, List.append_assoc]
            exact skipWs_printv e (X ++ 93 :: rest)
          rw [hskip]
          rw [hX, hv]
          simp only [List.cons_append, List.append_assoc]
          rw [if_neg h93]
          rw [show (c :: (r ++ (X ++ 93 :: rest)) : List Nat)
              = printElems e es2 ++ 93 :: rest from by
            rw [hX, hv]
            simp]
          have hsz2 : jsizeList (e :: es2) ≤ fuel := by
            simp only [jsize] at hsz
            omega
          rw [ihE e es2 rest hsz2]
      | obj ms =>
        cases ms with
        | nil =>
          rw [show printv (.obj []) = [123, 125] from by simp [printv]]
          rfl
        | cons m ms2 =>
          obtain ⟨X, hX⟩ := printMembers_shape m ms2
          obtain ⟨k, v⟩ := m
          rw [show printv (.obj ((k, v) :: ms2)) = 123 :: (printMembers (k, v) ms2 ++ [125]) from by
            simp [printv]]
          simp only [List.cons_append, List.append_assoc, List.nil_append]
          rw [parseValue_open_brace]
          have hskip : skipWs (printMembers (k, v) ms2 ++ 125 :: rest)
              = printMembers (k, v) ms2 ++ 125 :: rest := by
            rw [hX]
            simp only [List.cons_append]
            exact skipWs_cons_not_ws 34 _ (by decide)
          rw [hskip]
          rw [hX]
          simp only [List.cons_append]
          rw [if_neg (by decide)]
          rw [show ((34 : Nat) :: (X ++ 125 :: rest) : List Nat)
              = printMembers (k, v) ms2 ++ 125 :: rest from by
            rw [hX]
            simp]
          have hsz2 : jsizeMembers ((k, v) :: ms2) ≤ fuel := by
            simp only [jsize] at hsz
            omega
          rw [ihM k v ms2 rest hsz2]
    · intro e es rest hsz
      have hszE : jsize e ≤ fuel := by
        simp [jsizeList] at hsz
        omega
      cases es with
      | nil =>
        rw [show printElems e [] = printv e from by simp [printElems]]
        rw [parseElements_succ]
        rw [ihV e (93 :: rest) hszE (by rfl)]
        simp only []
        rw [skipWs_cons_not_ws 93 rest (by decide)]
        simp only []
        rfl
      | cons e2 es2 =>
        rw [show printElems e (e2 :: es2) = printv e ++ (44 :: 32 :: printElems e2 es2) from by
          simp [printElems]]
        simp only [List.append_assoc, List.cons_append]
        rw [parseElements_succ]
        rw [ihV e (44 :: 32 :: (printElems e2 es2 ++ 93 :: rest)) hszE (by rfl)]
        simp only []
        rw [skipWs_cons_not_ws 44 _ (by decide)]
        simp only [if_true]
        rw [show skipWs (32 :: (printElems e2 es2 ++ 93 :: rest))
            = skipWs (printElems e2 es2 ++ 93 :: rest) from by
          simp [skipWs, isJsonWs]]
        obtain ⟨X2, hX2⟩ := printElems_shape e2 es2
        rw [show skipWs (printElems e2 es2 ++ 93 :: rest)
            = printElems e2 es2 ++ 93 :: rest from by
          rw [hX2, List.append_assoc]
          exact skipWs_printv e2 _]
        have hsz3 : jsizeList (e2 :: es2) ≤ fuel := by
          simp [jsizeList] at hsz ⊢
          have := jsize_pos e
          omega
        rw [ihE e2 es2 rest hsz3]
    · intro k v ms rest hsz
      have hszV : jsize v ≤ fuel := by
        simp [jsizeMembers] at hsz
        omega
      cases ms with
      | nil =>
        rw [show printMembers (k, v) [] ++ 125 :: rest
            = 34 :: ((k.map escChar).flatten ++ 34 :: (58 :: 32 :: (printv v ++ 125 :: rest)))
            from by
          simp [printMembers, printString]]
        rw [parseMembers_quote]
        rw [parseStringBody_escape k (58 :: 32 :: (printv v ++ 125 :: rest))]
        simp only []
        rw [skipWs_cons_not_ws 58 _ (by decide)]
        simp only [if_true]
        rw [show skipWs (32 :: (printv v ++ 125 :: rest))
            = skipWs (printv v ++ 125 :: rest) from by
          simp [skipWs, isJsonWs]]
        rw [skipWs_printv v (125 :: rest)]
        rw [ihV v (125 :: rest) hszV (by rfl)]
        simp only []
        rw [skipWs_cons_not_ws 125 rest (by decide)]
        simp only []
        rfl
      | cons m2 ms2 =>
        obtain ⟨X2, hX2⟩ := printMembers_shape m2 ms2
        obtain ⟨k2, v2⟩ := m2
        rw [show printMembers (k, v) ((k2, v2) :: ms2) ++ 125 :: rest
            = 34 :: ((k.map escChar).flatten ++ 34 ::
                (58 :: 32 :: (printv v ++ 44 :: 32 :: (printMembers (k2, v2) ms2 ++ 125 :: rest))))
            from by
          simp [printMembers, printString]]
        rw [parseMembers_quote]
        rw [parseStringBody_escape k
          (58 :: 32 :: (printv v ++ 44 :: 32 :: (printMembers (k2, v2) ms2 ++ 125 :: rest)))]
        simp only []
        rw [skipWs_cons_not_ws 58 _ (by decide)]
        simp only [if_true]
        rw [show skipWs (32 :: (printv v ++ 44 :: 32 :: (printMembers (k2, v2) ms2 ++ 125 :: rest)))
            = skipWs (printv v ++ 44 :: 32 :: (printMembers (k2, v2) ms2 ++ 125 :: rest)) from by
          simp [skipWs, isJsonWs]]
        rw [skipWs_printv v _]
        rw [ihV v (44 :: 32 :: (printMembers (k2, v2) ms2 ++ 125 :: rest)) hszV (by rfl)]
        simp only []
        rw [skipWs_cons_not_ws 44 _ (by decide)]
        simp only [if_true]
        rw [show skipWs (32 :: (printMembers (k2, v2) ms2 ++ 125 :: rest))
            = skipWs (printMembers (k2, v2) ms2 ++ 125 :: rest) from by
          simp [skipWs, isJsonWs]]
        rw [show skipWs (printMembers (k2, v2) ms2 ++ 125 :: rest)
            = printMembers (k2, v2) ms2 ++ 125 :: rest from by
          rw [hX2]
          simp only [List.cons_append]
          exact skipWs_cons_not_ws 34 _ (by decide)]
        have hsz4 : jsizeMembers ((k2, v2) :: ms2) ≤ fuel := by
          simp [jsizeMembers] at hsz ⊢
          have := jsize_pos v
          omega
        rw [ihM k2 v2 ms2 rest hsz4]

/-- The node count of a value never exceeds its printed length (element and
member lists may use the closing bracket as one extra character). -/
theorem jsize_le_len : ∀ N : Nat,
    (∀ v : Json, jsize v ≤ N → jsize v ≤ (printv v).length) ∧
    (∀ (e : Json) (es : List Json), jsizeList (e :: es) ≤ N →
      jsizeList (e :: es) ≤ (printElems e es).length + 1) ∧
    (∀ (k : List Nat) (v : Json) (ms : List (List Nat × Json)),
      jsizeMembers ((k, v) :: ms) ≤ N →
      jsizeMembers ((k, v) :: ms) ≤ (printMembers (k, v) ms).length + 1) := by
  intro N
  induction N with
  | zero =>
    refine ⟨?_, ?_, ?_⟩
    · intro v hv
      have := jsize_pos v
      omega
    · intro e es hsz
      simp [jsizeList] at hsz
    · intro k v ms hsz
      simp [jsizeMembers] at hsz
  | succ N ih =>
    obtain ⟨ihV, ihE, ihM⟩ := ih
    refine ⟨?_, ?_, ?_⟩
    · intro v hv
      cases v with
      | null => simp [jsize, printv]
      | bool b => cases b <;> simp [jsize, printv]
      | num n =>
        obtain ⟨d, ds, hd, _⟩ := natDigits_head n.natAbs
        by_cases hneg : n < 0 <;> simp [jsize, printv, printInt, hneg, hd]
      | str s => simp [jsize, printv, printString]
      | arr es =>
        cases es with
        | nil => simp [jsize, jsizeList, printv]
        | cons e es2 =>
          have h := ihE e es2 (by simp [jsize, jsizeList] at hv ⊢; omega)
          simp [jsize, jsizeList, printv] at h ⊢
          omega
      | obj ms =>
        cases ms with
        | nil => simp [jsize, jsizeMembers, printv]
        | cons m ms2 =>
          obtain ⟨k, v⟩ := m
          have h := ihM k v ms2 (by simp [jsize, jsizeMembers] at hv ⊢; omega)
          simp [jsize, jsizeMembers, printv] at h ⊢
          omega
    · intro e es hsz
      have hV : jsize e ≤ N := by
        simp [jsizeList] at hsz
        omega
      have he := ihV e hV
      cases es with
      | nil =>
        simp [jsizeList, printElems]
        omega
      | cons e2 es2 =>
        have h2 : jsizeList (e2 :: es2) ≤ N := by
          simp [jsizeList] at hsz ⊢
          have := jsize_pos e
          omega
        have hrec := ihE e2 es2 h2
        simp [jsizeList, printElems] at hrec ⊢
        omega
    · intro k v ms hsz
      have hV : jsize v ≤ N := by
        simp [jsizeMembers] at hsz
        omega
      have he := ihV v hV
      cases ms with
      | nil =>
        simp [jsizeMembers, printMembers, printString]
        omega
      | cons m2 ms2 =>
        obtain ⟨k2, v2⟩ := m2
        have h2 : jsizeMembers ((k2, v2) :: ms2) ≤ N := by
          simp [jsizeMembers] at hsz ⊢
          have := jsize_pos v
          omega
        have hrec := ihM k2 v2 ms2 h2
        simp [jsizeMembers, printMembers, printString] at hrec ⊢
        omega

/-- `json.loads` reads back any value printed by `json.dumps`. -/
theorem json_loads_printv (v : Json) : json_loads (printv v) = some v := by
  unfold json_loads
  have hskip : skipWs (printv v) = printv v := by
    have h := skipWs_printv v []
    simpa using h
  rw [hskip]
  have hfuel : jsize v ≤ (printv v).length + 1 := by
    have h := (jsize_le_len (jsize v)).1 v le_rfl
    omega
  have hP := (parsePrint ((printv v).length + 1)).1 v [] hfuel (by rfl)
  rw [List.append_nil] at hP
  show (match parseValue ((printv v).length + 1) (printv v) with
        | some (w, rest) => if (skipWs rest).isEmpty = true then some w else none
        | none => none) = some v
  rw [hP]
  rfl

/-- Unicode scalar values (what a Python `str` may contain and UTF-8 can
encode): below the surrogate range or between it and U+10FFFF. -/
def validCp (c : Nat) : Bool :=
  decide (c < 55296) || (decide (57344 ≤ c) && decide (c < 1114112))

/-- `utf8Decode` on an ASCII byte. -/
theorem utf8Decode_ascii (b : Nat) (rest : List Nat) (h : b < 128) :
    utf8Decode (b :: rest) = (utf8Decode rest).map (fun s => b :: s) := by
  rw [utf8Decode.eq_def]
  simp only []
  rw [if_pos h]

/-- `utf8Decode` on a two-byte sequence. -/
theorem utf8Decode_2byte (b b1 : Nat) (rest : List Nat)
    (hb : 194 ≤ b) (hb2 : b < 224) (hb1 : 128 ≤ b1 ∧ b1 < 192) :
    utf8Decode (b :: b1 :: rest)
      = (utf8Decode rest).map (fun s => ((b - 192) * 64 + (b1 - 128)) :: s) := by
  rw [utf8Decode.eq_def]
  simp only []
  rw [if_neg (by omega), if_neg (by omega), if_pos (by omega), if_pos hb1]

/-- `utf8Decode` on a three-byte sequence outside the surrogate range. -/
theorem utf8Decode_3byte (b b1 b2 : Nat) (rest : List Nat)
    (hb : 224 ≤ b) (hb2 : b < 240)
    (hc1 : (128 ≤ b1 ∧ b1 < 192) ∧ (128 ≤ b2 ∧ b2 < 192))
    (hval : 2048 ≤ (b - 224) * 4096 + (b1 - 128) * 64 + (b2 - 128) ∧
      ¬(55296 ≤ (b - 224) * 4096 + (b1 - 128) * 64 + (b2 - 128) ∧
        (b - 224) * 4096 + (b1 - 128) * 64 + (b2 - 128) < 57344)) :
    utf8Decode (b :: b1 :: b2 :: rest)
      = (utf8Decode rest).map
          (fun s => ((b - 224) * 4096 + (b1 - 128) * 64 + (b2 - 128)) :: s) := by
  rw [utf8Decode.eq_def]
  simp only []
  rw [if_neg (by omega), if_neg (by omega), if_neg (by omega), if_pos (by omega),
    if_pos hc1, if_pos hval]

/-- `utf8Decode` on a four-byte sequence within the Unicode range. -/
theorem utf8Decode_4byte (b b1 b2 b3 : Nat) (rest : List Nat)
    (hb : 240 ≤ b) (hb2 : b < 245)
    (hc1 : (128 ≤ b1 ∧ b1 < 192) ∧ ((128 ≤ b2 ∧ b2 < 192) ∧ (128 ≤ b3 ∧ b3 < 192)))
    (hval : 65536 ≤ (b - 240) * 262144 + (b1 - 128) * 4096 + (b2 - 128) * 64 + (b3 - 128) ∧
      (b - 240) * 262144 + (b1 - 128) * 4096 + (b2 - 128) * 64 + (b3 - 128) < 1114112) :
    utf8Decode (b :: b1 :: b2 :: b3 :: rest)
      = (utf8Decode rest).map
          (fun s => ((b - 240) * 262144 + (b1 - 128) * 4096 + (b2 - 128) * 64
            + (b3 - 128)) :: s) := by
  rw [utf8Decode.eq_def]
  simp only []
  rw [if_neg (by omega), if_neg (by omega), if_neg (by omega), if_neg (by omega),
    if_pos (by omega), if_pos hc1, if_pos hval]

/-- Decoding inverts encoding on any sequence of Unicode scalar values. -/
theorem utf8_roundtrip : ∀ s : List Nat, (∀ c ∈ s, validCp c = true) →
    utf8Decode (utf8Encode s) = some s := by
  intro s
  induction s with
  | nil =>
    intro _
    rfl
  | cons c s2 ih =>
    intro hall
    have hc : validCp c = true := hall c (by simp)
    have hs2 := ih (fun x hx => hall x (by simp [hx]))
    have hcv : c < 55296 ∨ (57344 ≤ c ∧ c < 1114112) := by
      simpa [validCp, Bool.or_eq_true, decide_eq_true_iff] using hc
    rw [show utf8Encode (c :: s2) = utf8EncodeChar c ++ utf8Encode s2 from by
      simp [utf8Encode]]
    by_cases h1 : c < 128
    · rw [show utf8EncodeChar c = [c] from by simp [utf8EncodeChar, h1]]
      simp only [List.cons_append, List.nil_append]
      rw [utf8Decode_ascii c (utf8Encode s2) h1, hs2]
      rfl
    · by_cases h2 : c < 2048
      · rw [show utf8EncodeChar c = [192 + c / 64, 128 + c % 64] from by
          simp [utf8EncodeChar, h1, h2]]
        simp only [List.cons_append, List.nil_append]
        rw [utf8Decode_2byte (192 + c / 64) (128 + c % 64) (utf8Encode s2)
          (by omega) (by omega) (by omega)]
        rw [hs2]
        rw [show (192 + c / 64 - 192) * 64 + (128 + c % 64 - 128) = c from by omega]
        rfl
      · by_cases h3 : c < 65536
        · rw [show utf8EncodeChar c = [224 + c / 4096, 128 + c / 64 % 64, 128 + c % 64] from by
            simp [utf8EncodeChar, h1, h2, h3]]
          simp only [List.cons_append, List.nil_append]
          rw [utf8Decode_3byte (224 + c / 4096) (128 + c / 64 % 64) (128 + c % 64)
            (utf8Encode s2) (by omega) (by omega) (by omega)
            (by rcases hcv with h | h <;> omega)]
          rw [hs2]
          rw [show (224 + c / 4096 - 224) * 4096 + (128 + c / 64 % 64 - 128) * 64
              + (128 + c % 64 - 128) = c from by omega]
          rfl
        · have hub : c < 1114112 := by
            rcases hcv with h | h <;> omega
          rw [show utf8EncodeChar c
              = [240 + c / 262144, 128 + c / 4096 % 64, 128 + c / 64 % 64, 128 + c % 64] from by
            simp [utf8EncodeChar, h1, h2, h3]]
          simp only [List.cons_append, List.nil_append]
          rw [utf8Decode_4byte (240 + c / 262144) (128 + c / 4096 % 64) (128 + c / 64 % 64)
            (128 + c % 64) (utf8Encode s2) (by omega) (by omega) (by omega) (by omega)]
          rw [hs2]
          rw [show (240 + c / 262144 - 240) * 262144 + (128 + c / 4096 % 64 - 128) * 4096
              + (128 + c / 64 % 64 - 128) * 64 + (128 + c % 64 - 128) = c from by omega]
          rfl

/-- The consumer's payload interpretation: `message.data.decode('utf-8')`
followed by `json.loads`. -/
def consumer_decode (data : List Nat) : Option Json :=
  match utf8Decode data with
  | none => none
  | some raw => json_loads raw

/-- C8: an event record (a mapping) serialized by the publish sink to UTF-8
JSON bytes and then decoded and parsed by the consumer yields the original
record (objects are association lists, so equality is up to nothing more
than key order, which the codec preserves). -/
theorem record_roundtrip (members : List (List Nat × Json))
    (hvalid : ∀ c ∈ json_dumps (Json.obj members), validCp c = true) :
    consumer_decode (message_data (Json.obj members)) = some (Json.obj members) := by
  unfold consumer_decode message_data
  rw [utf8_roundtrip (json_dumps (Json.obj members)) hvalid]
  exact json_loads_printv (Json.obj members)

/-- Witness for `record_roundtrip` on the record `{"a": 5}`. -/
theorem record_roundtrip_witness :
    consumer_decode (message_data (Json.obj [([97], Json.num 5)]))
      = some (Json.obj [([97], Json.num 5)]) :=
  record_roundtrip [([97], Json.num 5)] (by
    have h : json_dumps (Json.obj [([97], Json.num 5)])
        = [123, 34, 97, 34, 58, 32, 53, 125] := by
      simp [json_dumps, printv, printMembers, printString, printInt, natDigits, escChar]
    rw [h]
    decide)
